import Mathlib

/-!
# Verification of the blackjack game core

Shallow embedding of the game logic in `src/nicegui_blackjack/blackjack.py`:
cards, hand scoring with the soft-ace rule (`Owner._point` / `Owner.point`),
the deck (`Game.nums` with `Game.pop`), the dealer's automatic policy
(`Dealer.act`), the player's draw (`Player.draw` / `Player.act`) and the
game-level entry points (`Game.start`, `Game.player_turn`, `Game.dealer_turn`).

Mutating Python methods become functions from the touched state to
`Except σ σ`: `Except.ok s` is normal completion with final state `s`, and
`Except.error s` models a Python exception (an `IndexError` from popping an
empty list) escaping with the state as it stood when the exception was
raised.  UI construction (`build`), CSS and click bindings are out of scope
and dropped; the `class_` string of a card is kept as a three-valued type
because `opened` (and hence scoring) reads it.
-/

/-- Constant `POINT21` from the source: the bust threshold. -/
def POINT21 : Nat := 21

/-- The CSS class of a card: `""` (face down), `"opened"` or `"hidden"`. -/
inductive CardClass where
  | blank
  | opened
  | hidden
  deriving DecidableEq

/-- A `Card`: the identity `num` (0–51) plus its current `class_`.
`rank` and `suit` are derived from `num` exactly as in `Card.__init__`. -/
structure Card where
  num : Nat
  class_ : CardClass
  deriving DecidableEq

/-- Rank of a card: `self.rank = num % 13 + 1`. -/
def Card.rank (c : Card) : Nat := c.num % 13 + 1

/-- Suit of a card: `self.suit = num // 13`. -/
def Card.suit (c : Card) : Nat := c.num / 13

/-- Visibility `Card.opened`: the card is visible iff its class is `"opened"`. -/
def Card.opened (c : Card) : Bool := c.class_ == CardClass.opened

/-- Points `Card.point`: `min(10, self.rank) if self.opened else 0`. -/
def Card.point (c : Card) : Nat := if c.opened then min 10 c.rank else 0

/-- One iteration of the ace loop in `Owner._point`:
`if cd.rank == 1 and point_ + 10 <= POINT21: point_ += 10`. -/
def Owner.aceStep (p : Nat) (cd : Card) : Nat :=
  if cd.rank = 1 ∧ p + 10 ≤ POINT21 then p + 10 else p

/-- Scoring `Owner._point(cards)`: base sum of card points, then the ace loop over
the same list. -/
def Owner.pointOf (cards : List Card) : Nat :=
  cards.foldl Owner.aceStep (cards.map Card.point).sum

/-- Hand total `Owner.point()`: `_point` applied to the face-up cards of the hand. -/
def Owner.point (cards : List Card) : Nat :=
  Owner.pointOf (cards.filter Card.opened)

/-- Deck pop `Game.pop`: `self.nums.pop()` — remove and return the LAST element;
`none` models the `IndexError` on an empty list. -/
def Game.pop (nums : List Nat) : Option (Nat × List Nat) :=
  match nums.getLast? with
  | none => none
  | some n => some (n, nums.dropLast)

/-- Drawing `Player.draw`: pop an identity, then append it face down to the hand.
The pop happens first, so a failing pop leaves the hand untouched. -/
def Player.draw (cards : List Card) (deck : List Nat) :
    Except (List Card × List Nat) (List Card × List Nat) :=
  match Game.pop deck with
  | none => Except.error (cards, deck)
  | some nr => Except.ok (cards ++ [⟨nr.1, CardClass.blank⟩], nr.2)

/-- Threshold `Dealer.LOWER`: the dealer draws while strictly below this. -/
def Dealer.LOWER : Nat := 17

/-- The `while self._point(cards) < self.LOWER` loop of `Dealer.act`,
acting on the scratch list of all-face-up copies.  An empty deck while the
loop still wants a card is the `IndexError` case.  `fuel` makes the
recursion structural; every pop shortens the deck, so `fuel = deck.length`
(as supplied by `Dealer.drawLoop`) always outlasts the loop and the
fuel-exhaustion branch is unreachable (`Dealer.drawGo_fuel_irrelevant`). -/
def Dealer.drawGo (fuel : Nat) (cards : List Card) (deck : List Nat) :
    Except (List Card × List Nat) (List Card × List Nat) :=
  if Owner.pointOf cards < Dealer.LOWER then
    match Game.pop deck, fuel with
    | none, _ => Except.error (cards, deck)
    | some nr, fuel' + 1 => Dealer.drawGo fuel' (cards ++ [⟨nr.1, CardClass.opened⟩]) nr.2
    | some _, 0 => Except.error (cards, deck)
  else
    Except.ok (cards, deck)

/-- The dealer's draw loop on the scratch list. -/
def Dealer.drawLoop (cards : List Card) (deck : List Nat) :
    Except (List Card × List Nat) (List Card × List Nat) :=
  Dealer.drawGo deck.length cards deck

/-- Policy `Dealer.act` without the `Game`-level bookkeeping: copy the hand all
face up, run the draw loop, append the drawn cards (`cards[2:]` of the
scratch list) as `"hidden"`, then open every card from index 1 on.  On the
`IndexError` path the dealer's own hand is untouched and the deck is as the
loop left it. -/
def Dealer.act (cards : List Card) (deck : List Nat) :
    Except (List Card × List Nat) (List Card × List Nat) :=
  match Dealer.drawLoop (cards.map fun c => ⟨c.num, CardClass.opened⟩) deck with
  | Except.error pr => Except.error (cards, pr.2)
  | Except.ok pr =>
    let withHidden := cards ++ (pr.1.drop 2).map fun c => ⟨c.num, CardClass.hidden⟩
    Except.ok
      (withHidden.take 1 ++ (withHidden.drop 1).map fun c => Card.mk c.num CardClass.opened,
       pr.2)

/-- State `Game`: deck, the two hands, the `ask_draw` flag and the message. -/
structure Game where
  nums : List Nat
  dealer : List Card
  player : List Card
  ask_draw : Bool
  message : String
  deriving DecidableEq

/-- Entry point `Game.start` with an explicit `nums` list: deal two face-up cards to the
player, then a face-up and a face-down card to the dealer, then
`change_ask(ask_draw=True)`.  `none` models the `IndexError` when fewer than
four cards are supplied. -/
def Game.start (nums : List Nat) : Option Game :=
  match Game.pop nums with
  | none => none
  | some p1 =>
    match Game.pop p1.2 with
    | none => none
    | some p2 =>
      match Game.pop p2.2 with
      | none => none
      | some d1 =>
        match Game.pop d1.2 with
        | none => none
        | some d2 =>
          some
            { nums := d2.2
              dealer := [⟨d1.1, CardClass.opened⟩, ⟨d2.1, CardClass.blank⟩]
              player := [⟨p1.1, CardClass.opened⟩, ⟨p2.1, CardClass.opened⟩]
              ask_draw := true
              message := "Draw card?" }

/-- Entry point `Game.player_turn`: `self.player.draw(self)` then
`change_ask(ask_draw=False)` (message defaults to `"Click Card"`).  The
failing pop raises before anything is mutated. -/
def Game.player_turn (g : Game) : Except Game Game :=
  match Player.draw g.player g.nums with
  | Except.error _ => Except.error g
  | Except.ok pr =>
    Except.ok { g with player := pr.1, nums := pr.2, ask_draw := false, message := "Click Card" }

/-- Entry point `Game.dealer_turn`: the outcome resolution.  `message` starts as
`"You loss."`; only when the player's total is within 21 does the dealer
act and the comparison run. -/
def Game.dealer_turn (g : Game) : Except Game Game :=
  if Owner.point g.player ≤ POINT21 then
    match Dealer.act g.dealer g.nums with
    | Except.error pr => Except.error { g with dealer := pr.1, nums := pr.2 }
    | Except.ok pr =>
      Except.ok
        { g with
          dealer := pr.1
          nums := pr.2
          ask_draw := false
          message :=
            if Owner.point g.player = Owner.point pr.1 then "Draw."
            else if POINT21 < Owner.point pr.1 ∨ Owner.point pr.1 < Owner.point g.player then
              "You win."
            else "You loss." }
  else
    Except.ok { g with ask_draw := false, message := "You loss." }

/-- Reveal step `Player.act`: open the most recently drawn card (`self.cards[-1]`,
an `IndexError` on an empty hand), `change_ask(ask_draw=True)`, and hand
control to the dealer when the total reached 21. -/
def Game.player_act (g : Game) : Except Game Game :=
  match g.player.getLast? with
  | none => Except.error g
  | some c =>
    let g1 :=
      { g with
        player := g.player.dropLast ++ [Card.mk c.num CardClass.opened]
        ask_draw := true
        message := "Draw card?" }
    if POINT21 ≤ Owner.point g1.player then Game.dealer_turn g1 else Except.ok g1

/-- All card identities of a game state: player hand, dealer hand, deck. -/
def Game.allNums (g : Game) : List Nat :=
  g.player.map Card.num ++ g.dealer.map Card.num ++ g.nums

/-! ## Scoring: closed form of the ace loop -/

/-- The hard total of a hand: every face-up card at its base value
(face-down cards contribute 0, each ace counts 1). -/
def hardTotal (cards : List Card) : Nat :=
  ((cards.filter Card.opened).map Card.point).sum

/-- The hand holds at least one face-up ace. -/
def hasOpenAce (cards : List Card) : Prop :=
  ∃ c ∈ cards, c.opened = true ∧ c.rank = 1

instance (cards : List Card) : Decidable (hasOpenAce cards) := by
  unfold hasOpenAce
  infer_instance

/-! ## Spec-side scoring definitions (for the refinement claims) -/

/-- Spec-side base point of a card (§3 Hand invariant): Ace = 1, ranks
2–10 at face value, J/Q/K = 10. -/
def specBasePoint (c : Card) : Nat :=
  if c.rank = 1 then 1 else if 11 ≤ c.rank then 10 else c.rank

/-- Spec-side total (§3 Hand invariant, first formulation): sum the base
points of the face-up cards, then for each ace among the face-up cards add
10 if doing so keeps the total within 21; face-down cards contribute 0. -/
def specTotalPoints (cards : List Card) : Nat :=
  (cards.filter Card.opened).foldl
    (fun t c => if c.rank = 1 ∧ t + 10 ≤ 21 then t + 10 else t)
    ((cards.filter Card.opened).map specBasePoint).sum

/-- Number of aces among the face-up cards. -/
def specAces (cards : List Card) : Nat :=
  (cards.filter Card.opened).countP fun c => c.rank == 1

/-- Spec-side hard total: base points of the face-up cards. -/
def specHard (cards : List Card) : Nat :=
  ((cards.filter Card.opened).map specBasePoint).sum

/-- Spec-side total (§3 Hand invariant, second formulation): upgrade as many
aces as possible from 1 to 11 (i.e. +10 each) without exceeding 21. -/
def specMaxUpgradeTotal (cards : List Card) : Nat :=
  specHard cards +
    10 * Nat.findGreatest (fun k => specHard cards + 10 * k ≤ 21) (specAces cards)

/-- Witness state for C1: player stands on 20 against a dealer showing a
queen with a seven in the hole. -/
def c1w : Game :=
  { nums := []
    dealer := [⟨11, CardClass.opened⟩, ⟨6, CardClass.blank⟩]
    player := [⟨8, CardClass.opened⟩, ⟨0, CardClass.opened⟩, ⟨12, CardClass.opened⟩]
    ask_draw := false
    message := "Click Card" }

/-- The state `Game.dealer_turn` produces from `c1w`. -/
def c1wRes : Game :=
  { nums := []
    dealer := [⟨11, CardClass.opened⟩, ⟨6, CardClass.opened⟩]
    player := [⟨8, CardClass.opened⟩, ⟨0, CardClass.opened⟩, ⟨12, CardClass.opened⟩]
    ask_draw := false
    message := "You win." }

/-- A busted player (K + J + 10 = 30) facing a dealer that still has its
hole card face down and a card left in the deck. -/
def c4g : Game :=
  { nums := [5]
    dealer := [⟨11, CardClass.opened⟩, ⟨0, CardClass.blank⟩]
    player := [⟨12, CardClass.opened⟩, ⟨10, CardClass.opened⟩, ⟨9, CardClass.opened⟩]
    ask_draw := false
    message := "Click Card" }

/-- What `Game.dealer_turn` produces from `c4g`: only the flags change. -/
def c4gRes : Game :=
  { nums := [5]
    dealer := [⟨11, CardClass.opened⟩, ⟨0, CardClass.blank⟩]
    player := [⟨12, CardClass.opened⟩, ⟨10, CardClass.opened⟩, ⟨9, CardClass.opened⟩]
    ask_draw := false
    message := "You loss." }

/-- A game whose phase asks no draw (`ask_draw = false`), with a card left
in the deck. -/
def c5g : Game :=
  { nums := [3]
    dealer := [⟨11, CardClass.opened⟩, ⟨0, CardClass.blank⟩]
    player := [⟨12, CardClass.opened⟩, ⟨10, CardClass.opened⟩]
    ask_draw := false
    message := "You win." }

/-- What `Game.player_turn` produces from `c5g`: the draw goes through. -/
def c5gRes : Game :=
  { nums := []
    dealer := [⟨11, CardClass.opened⟩, ⟨0, CardClass.blank⟩]
    player := [⟨12, CardClass.opened⟩, ⟨10, CardClass.opened⟩, ⟨3, CardClass.blank⟩]
    ask_draw := false
    message := "Click Card" }

/-- A game with an exhausted deck. -/
def c8g : Game :=
  { nums := []
    dealer := [⟨11, CardClass.opened⟩, ⟨0, CardClass.blank⟩]
    player := [⟨12, CardClass.opened⟩, ⟨10, CardClass.opened⟩]
    ask_draw := true
    message := "Draw card?" }

/-- State after `Game.start [12, 6, 11, 0, 8]`: player 9♠ + A♠ face up,
dealer Q♠ face up with 7♠ in the hole, one card (K♠) left. -/
def c6g1 : Game :=
  { nums := [12]
    dealer := [⟨11, CardClass.opened⟩, ⟨6, CardClass.blank⟩]
    player := [⟨8, CardClass.opened⟩, ⟨0, CardClass.opened⟩]
    ask_draw := true
    message := "Draw card?" }

/-- After the player's draw: the K♠ joins the hand face down. -/
def c6g2 : Game :=
  { nums := []
    dealer := [⟨11, CardClass.opened⟩, ⟨6, CardClass.blank⟩]
    player := [⟨8, CardClass.opened⟩, ⟨0, CardClass.opened⟩, ⟨12, CardClass.blank⟩]
    ask_draw := false
    message := "Click Card" }

/-- After the drawn card is revealed: player at 20, still deciding. -/
def c6g3 : Game :=
  { nums := []
    dealer := [⟨11, CardClass.opened⟩, ⟨6, CardClass.blank⟩]
    player := [⟨8, CardClass.opened⟩, ⟨0, CardClass.opened⟩, ⟨12, CardClass.opened⟩]
    ask_draw := true
    message := "Draw card?" }

/-- After the stand: dealer reveals 17 and the player wins. -/
def c6g4 : Game :=
  { nums := []
    dealer := [⟨11, CardClass.opened⟩, ⟨6, CardClass.opened⟩]
    player := [⟨8, CardClass.opened⟩, ⟨0, CardClass.opened⟩, ⟨12, CardClass.opened⟩]
    ask_draw := false
    message := "You win." }

/-- State after `Game.start (List.range 52)`. -/
def c9g : Game :=
  { nums := List.range 48
    dealer := [⟨49, CardClass.opened⟩, ⟨48, CardClass.blank⟩]
    player := [⟨51, CardClass.opened⟩, ⟨50, CardClass.opened⟩]
    ask_draw := true
    message := "Draw card?" }

/-- State after `Game.player_turn c9g`: the 47 drawn face down. -/
def c9g2 : Game :=
  { nums := List.range 47
    dealer := [⟨49, CardClass.opened⟩, ⟨48, CardClass.blank⟩]
    player := [⟨51, CardClass.opened⟩, ⟨50, CardClass.opened⟩, ⟨47, CardClass.blank⟩]
    ask_draw := false
    message := "Click Card" }

/-- State after `Game.dealer_turn c9g`: the dealer reveals 20 and ties. -/
def c9gd : Game :=
  { nums := List.range 48
    dealer := [⟨49, CardClass.opened⟩, ⟨48, CardClass.opened⟩]
    player := [⟨51, CardClass.opened⟩, ⟨50, CardClass.opened⟩]
    ask_draw := false
    message := "Draw." }

/-! ## Theorems -/

example : Game.pop [12, 6, 11, 0, 8] = some (8, [12, 6, 11, 0]) := by decide

example : Owner.point [⟨8, CardClass.opened⟩, ⟨0, CardClass.opened⟩] = 20 := by decide

example : Owner.point [⟨8, CardClass.opened⟩, ⟨0, CardClass.opened⟩,
    ⟨12, CardClass.opened⟩] = 20 := by decide

example : Owner.point [⟨11, CardClass.opened⟩, ⟨6, CardClass.blank⟩] = 10 := by decide

/-- Popping a nonempty list shortens it (termination measure for the dealer
draw loop). -/
theorem Game.pop_length {deck : List Nat} {nr : Nat × List Nat}
    (h : Game.pop deck = some nr) : nr.2.length < deck.length := by
  unfold Game.pop at h
  cases hl : deck.getLast? with
  | none => rw [hl] at h; exact absurd h (by simp)
  | some n =>
    rw [hl] at h
    cases h
    have hne : deck ≠ [] := by
      intro e
      subst e
      simp at hl
    have := List.length_pos.mpr hne
    simp only [List.length_dropLast]
    omega

/-- A successful pop splits the deck as `rest ++ [n]`. -/
theorem Game.pop_append {deck : List Nat} {nr : Nat × List Nat}
    (h : Game.pop deck = some nr) : deck = nr.2 ++ [nr.1] := by
  unfold Game.pop at h
  cases hl : deck.getLast? with
  | none => rw [hl] at h; exact absurd h (by simp)
  | some n =>
    rw [hl] at h
    cases h
    have hne : deck ≠ [] := by
      intro e
      subst e
      simp at hl
    have hg : deck.getLast hne = n := by
      have := (List.getLast?_eq_getLast deck hne)
      rw [hl] at this
      exact (Option.some_injective _ this.symm)
    conv_lhs => rw [← List.dropLast_append_getLast hne]
    rw [hg]

/-- The deck is empty exactly when `pop` fails. -/
theorem Game.pop_eq_none {deck : List Nat} : Game.pop deck = none ↔ deck = [] := by
  unfold Game.pop
  cases hl : deck.getLast? with
  | none => simpa using List.getLast?_eq_none_iff.mp hl
  | some n =>
    simp only [reduceCtorEq, false_iff]
    intro e
    subst e
    simp at hl

/-- With fuel at least the deck length, the loop never exhausts its fuel:
the result does not depend on the exact fuel. -/
theorem Dealer.drawGo_fuel_irrelevant :
    ∀ (f₁ f₂ : Nat) (cards : List Card) (deck : List Nat),
      deck.length ≤ f₁ → deck.length ≤ f₂ →
      Dealer.drawGo f₁ cards deck = Dealer.drawGo f₂ cards deck := by
  intro f₁
  induction f₁ with
  | zero =>
    intro f₂ cards deck h1 _
    have hdeck : deck = [] := List.length_eq_zero.mp (Nat.le_zero.mp h1)
    subst hdeck
    cases f₂ <;> rfl
  | succ f₁ ih =>
    intro f₂ cards deck h1 h2
    unfold Dealer.drawGo
    by_cases hlt : Owner.pointOf cards < Dealer.LOWER
    · rw [if_pos hlt, if_pos hlt]
      cases hpop : Game.pop deck with
      | none => cases f₂ <;> rfl
      | some nr =>
        have hne : deck ≠ [] := by
          intro e
          subst e
          rw [Game.pop_eq_none.mpr rfl] at hpop
          exact absurd hpop (by simp)
        have hlen : nr.2.length + 1 = deck.length := by
          have := Game.pop_append hpop
          have : deck.length = nr.2.length + 1 := by rw [this]; simp
          omega
        cases f₂ with
        | zero => omega
        | succ f₂' => exact ih f₂' _ nr.2 (by omega) (by omega)
    · rw [if_neg hlt, if_neg hlt]

example :
    Game.start [12, 6, 11, 0, 8] =
      some
        { nums := [12]
          dealer := [⟨11, CardClass.opened⟩, ⟨6, CardClass.blank⟩]
          player := [⟨8, CardClass.opened⟩, ⟨0, CardClass.opened⟩]
          ask_draw := true
          message := "Draw card?" } := by decide

/-- Ranks are always at least 1. -/
theorem Card.one_le_rank (c : Card) : 1 ≤ c.rank := by
  unfold Card.rank
  omega

/-- A list of positive numbers sums to at least its length. -/
theorem length_le_sum_of_pos {l : List Nat} (h : ∀ x ∈ l, 1 ≤ x) :
    l.length ≤ l.sum := by
  induction l with
  | nil => simp
  | cons x xs ih =>
    have hx := h x (by simp)
    have := ih fun y hy => h y (by simp [hy])
    simp only [List.length_cons, List.sum_cons]
    omega

/-- Closed form of the ace loop: starting from a value `p` at least the
number of aces in the list, the loop adds 10 exactly once, and only when
an ace is present and `p + 10` stays within 21. -/
theorem aceLoop_eq (L : List Card) :
    ∀ p : Nat, L.countP (fun c => c.rank == 1) ≤ p →
      L.foldl Owner.aceStep p =
        if (∃ c ∈ L, c.rank = 1) ∧ p + 10 ≤ 21 then p + 10 else p := by
  induction L with
  | nil => intro p _; simp
  | cons c L ih =>
    intro p hp
    rw [List.countP_cons] at hp
    by_cases hc : c.rank = 1
    · have hp' : L.countP (fun c => c.rank == 1) + 1 ≤ p := by simpa [hc] using hp
      by_cases hle : p + 10 ≤ 21
      · have hstep : Owner.aceStep p c = p + 10 := by
          unfold Owner.aceStep POINT21
          exact if_pos ⟨hc, hle⟩
        have hcount : L.countP (fun c => c.rank == 1) ≤ p + 10 := by omega
        rw [List.foldl_cons, hstep, ih (p + 10) hcount]
        have hnone : ¬((∃ d ∈ L, d.rank = 1) ∧ p + 10 + 10 ≤ 21) := by
          rintro ⟨⟨d, hd, hd1⟩, habs⟩
          have : 0 < L.countP (fun c => c.rank == 1) :=
            List.countP_pos_iff.mpr ⟨d, hd, by simpa using hd1⟩
          omega
        rw [if_neg hnone, if_pos ⟨⟨c, by simp, hc⟩, hle⟩]
      · have hstep : Owner.aceStep p c = p := by
          unfold Owner.aceStep POINT21
          exact if_neg fun habs => hle habs.2
        have hcount : L.countP (fun c => c.rank == 1) ≤ p := by omega
        rw [List.foldl_cons, hstep, ih p hcount]
        rw [if_neg (by rintro ⟨_, habs⟩; omega), if_neg (by rintro ⟨_, habs⟩; omega)]
    · have hstep : Owner.aceStep p c = p := by
        unfold Owner.aceStep POINT21
        exact if_neg fun habs => hc habs.1
      have hcount : L.countP (fun c => c.rank == 1) ≤ p := by omega
      rw [List.foldl_cons, hstep, ih p hcount]
      have hmem : (∃ d ∈ c :: L, d.rank = 1) ↔ ∃ d ∈ L, d.rank = 1 := by
        constructor
        · rintro ⟨d, hd, hd1⟩
          rcases List.mem_cons.mp hd with rfl | hd'
          · exact absurd hd1 hc
          · exact ⟨d, hd', hd1⟩
        · rintro ⟨d, hd, hd1⟩
          exact ⟨d, List.mem_cons_of_mem _ hd, hd1⟩
      by_cases hL : (∃ d ∈ L, d.rank = 1) ∧ p + 10 ≤ 21
      · rw [if_pos hL, if_pos ⟨hmem.mpr hL.1, hL.2⟩]
      · rw [if_neg hL, if_neg (by rw [and_congr_left_iff.mpr fun _ => hmem]; exact hL)]

/-- Each face-up card is worth at least one point. -/
theorem one_le_point_of_opened {c : Card} (h : c.opened = true) : 1 ≤ c.point := by
  unfold Card.point
  rw [h]
  have := Card.one_le_rank c
  simp only [if_true]
  omega

/-- The number of face-up aces never exceeds the hard total. -/
theorem countP_ace_le_hardTotal (cards : List Card) :
    (cards.filter Card.opened).countP (fun c => c.rank == 1) ≤ hardTotal cards := by
  calc (cards.filter Card.opened).countP (fun c => c.rank == 1)
      ≤ (cards.filter Card.opened).length := List.countP_le_length _
    _ = ((cards.filter Card.opened).map Card.point).length := by simp
    _ ≤ ((cards.filter Card.opened).map Card.point).sum := by
        apply length_le_sum_of_pos
        intro x hx
        rcases List.mem_map.mp hx with ⟨c, hc, rfl⟩
        exact one_le_point_of_opened (List.mem_filter.mp hc).2
    _ = hardTotal cards := rfl

/-- The soft-ace total in closed form: the hard total, plus 10 exactly when
a face-up ace is present and the upgrade stays within 21. -/
theorem point_closed_aux (cards : List Card) :
    Owner.point cards =
      if hasOpenAce cards ∧ hardTotal cards + 10 ≤ 21 then hardTotal cards + 10
      else hardTotal cards := by
  unfold Owner.point Owner.pointOf
  rw [show ((cards.filter Card.opened).map Card.point).sum = hardTotal cards from rfl]
  rw [aceLoop_eq _ _ (countP_ace_le_hardTotal cards)]
  have hmem : (∃ c ∈ cards.filter Card.opened, c.rank = 1) ↔ hasOpenAce cards := by
    unfold hasOpenAce
    constructor
    · rintro ⟨c, hc, hc1⟩
      have := List.mem_filter.mp hc
      exact ⟨c, this.1, this.2, hc1⟩
    · rintro ⟨c, hc, hop, hc1⟩
      exact ⟨c, List.mem_filter.mpr ⟨hc, hop⟩, hc1⟩
  rw [if_congr (and_congr_left fun _ => hmem) rfl rfl]

/-- The spec base point agrees with the code's `min(10, rank)` formula. -/
theorem specBasePoint_eq_min (c : Card) : specBasePoint c = min 10 c.rank := by
  unfold specBasePoint
  have h1 := Card.one_le_rank c
  by_cases hr : c.rank = 1
  · rw [if_pos hr, hr, Nat.min_eq_right (by omega)]
  · rw [if_neg hr]
    by_cases h11 : 11 ≤ c.rank
    · rw [if_pos h11, Nat.min_eq_left (by omega)]
    · rw [if_neg h11, Nat.min_eq_right (by omega)]

/-- The spec hard total is the code's hard total. -/
theorem specHard_eq (cards : List Card) : specHard cards = hardTotal cards := by
  unfold specHard hardTotal
  congr 1
  apply List.map_congr_left
  intro c hc
  rw [specBasePoint_eq_min]
  unfold Card.point
  rw [if_pos (List.mem_filter.mp hc).2]

/-- With at most as many aces as points, at most one ace upgrade ever fits
under 21, so the greatest feasible number of upgrades is 1 or 0. -/
theorem findGreatest_upgrade (A h : Nat) (hA : A ≤ h) :
    Nat.findGreatest (fun k => h + 10 * k ≤ 21) A =
      if 1 ≤ A ∧ h + 10 ≤ 21 then 1 else 0 := by
  by_cases hcond : 1 ≤ A ∧ h + 10 ≤ 21
  · rw [if_pos hcond]
    rw [Nat.findGreatest_eq_iff]
    refine ⟨hcond.1, fun _ => by omega, ?_⟩
    intro k h1k hkA habs
    have : 2 ≤ k := h1k
    have : 2 ≤ h := le_trans (le_trans this hkA) hA
    omega
  · rw [if_neg hcond]
    rw [Nat.findGreatest_eq_iff]
    refine ⟨Nat.zero_le _, fun habs => absurd rfl habs, ?_⟩
    intro k h0k hkA habs
    rcases Nat.lt_or_ge A 1 with hA0 | hA1
    · omega
    · have hh : ¬(h + 10 ≤ 21) := fun hle => hcond ⟨hA1, hle⟩
      omega

/-- A face-up ace exists iff the face-up ace count is positive. -/
theorem hasOpenAce_iff_aces_pos (cards : List Card) :
    hasOpenAce cards ↔ 1 ≤ specAces cards := by
  unfold hasOpenAce specAces
  rw [Nat.one_le_iff_ne_zero, ← Nat.pos_iff_ne_zero, List.countP_pos_iff]
  constructor
  · rintro ⟨c, hc, hop, h1⟩
    exact ⟨c, List.mem_filter.mpr ⟨hc, hop⟩, by simpa using h1⟩
  · rintro ⟨c, hc, h1⟩
    have := List.mem_filter.mp hc
    exact ⟨c, this.1, this.2, by simpa using h1⟩

/-! ## Dealer draw loop: structure lemmas -/

/-- Combined specification of a normal exit of the draw loop: it only
appends face-up cards to the scratch list, every appended card was
requested while the running total was still below `Dealer.LOWER`, and the
identities of scratch list plus deck are conserved. -/
theorem Dealer.drawGo_spec (fuel : Nat) :
    ∀ (cards : List Card) (deck : List Nat) res,
      Dealer.drawGo fuel cards deck = Except.ok res →
      (∃ d, res.1 = cards ++ d ∧ ∀ c ∈ d, c.class_ = CardClass.opened) ∧
        (∀ i, cards.length ≤ i → i < res.1.length →
          Owner.pointOf (res.1.take i) < Dealer.LOWER) ∧
        List.Perm (res.1.map Card.num ++ res.2) (cards.map Card.num ++ deck) := by
  induction fuel with
  | zero =>
    intro cards deck res hres
    unfold Dealer.drawGo at hres
    by_cases hlt : Owner.pointOf cards < Dealer.LOWER
    · rw [if_pos hlt] at hres
      cases hpop : Game.pop deck with
      | none => rw [hpop] at hres; exact absurd hres (by simp)
      | some nr => rw [hpop] at hres; exact absurd hres (by simp)
    · rw [if_neg hlt] at hres
      injection hres with hres'
      subst hres'
      refine ⟨⟨[], by simp⟩, ?_, List.Perm.refl _⟩
      intro i hi hi'
      have hlen : i < cards.length := hi'
      omega
  | succ fuel ih =>
    intro cards deck res hres
    unfold Dealer.drawGo at hres
    by_cases hlt : Owner.pointOf cards < Dealer.LOWER
    · rw [if_pos hlt] at hres
      cases hpop : Game.pop deck with
      | none => rw [hpop] at hres; exact absurd hres (by simp)
      | some nr =>
        rw [hpop] at hres
        rcases ih (cards ++ [⟨nr.1, CardClass.opened⟩]) nr.2 res hres with
          ⟨⟨d, hd, hop⟩, hbelow, hperm⟩
        refine ⟨⟨⟨nr.1, CardClass.opened⟩ :: d, by simpa using hd, ?_⟩, ?_, ?_⟩
        · intro c hc
          rcases List.mem_cons.mp hc with rfl | hc'
          · rfl
          · exact hop c hc'
        · intro i hi hi'
          rcases Nat.eq_or_lt_of_le hi with rfl | hgt
          · have htake : res.1.take cards.length = cards := by
              rw [hd, List.append_assoc]
              exact List.take_left cards _
            rw [htake]
            exact hlt
          · exact hbelow i (by simpa using hgt) hi'
        · refine hperm.trans ?_
          rw [Game.pop_append hpop, List.map_append, List.append_assoc]
          exact List.Perm.append_left _ ((List.perm_append_singleton _ _).symm)
    · rw [if_neg hlt] at hres
      injection hres with hres'
      subst hres'
      refine ⟨⟨[], by simp⟩, ?_, List.Perm.refl _⟩
      intro i hi hi'
      have hlen : i < cards.length := hi'
      omega

/-- Restatement of `Dealer.drawGo_spec` for `Dealer.drawLoop`. -/
theorem Dealer.drawLoop_spec (cards : List Card) (deck : List Nat) (res : List Card × List Nat)
    (hres : Dealer.drawLoop cards deck = Except.ok res) :
    (∃ d, res.1 = cards ++ d ∧ ∀ c ∈ d, c.class_ = CardClass.opened) ∧
      (∀ i, cards.length ≤ i → i < res.1.length →
        Owner.pointOf (res.1.take i) < Dealer.LOWER) ∧
      List.Perm (res.1.map Card.num ++ res.2) (cards.map Card.num ++ deck) :=
  Dealer.drawGo_spec deck.length cards deck res hres

/-- C3: during the dealer's turn the dealer never draws once the total of
its hand with all cards counted face up is at least 17 (each drawn card was
requested at a strictly smaller running total), and after `Dealer.act`
completes every dealer card — the hole card at index 1 included — is face
up.  The visibility hypotheses (nonempty hand whose first card is face up)
hold in every reachable state: the dealer is dealt two cards with the first
face up. -/
theorem Dealer.act_policy (cards : List Card) (deck : List Nat) :
    (∀ res, Dealer.drawLoop (cards.map fun c => ⟨c.num, CardClass.opened⟩) deck
        = Except.ok res →
      ∀ i, cards.length ≤ i → i < res.1.length →
        Owner.pointOf (res.1.take i) < Dealer.LOWER) ∧
    (∀ res, Dealer.act cards deck = Except.ok res →
      cards ≠ [] → (∀ c ∈ cards.take 1, c.opened = true) →
      ∀ c ∈ res.1, c.opened = true) := by
  constructor
  · intro res hres i hi hi'
    exact (Dealer.drawLoop_spec _ _ res hres).2.1 i (by simpa using hi) hi'
  · intro res hres hne hop
    unfold Dealer.act at hres
    cases hloop : Dealer.drawLoop (cards.map fun c => ⟨c.num, CardClass.opened⟩) deck with
    | error pr => rw [hloop] at hres; exact absurd hres (by simp)
    | ok pr =>
      rw [hloop] at hres
      injection hres with hres'
      subst hres'
      intro c hc
      rcases List.mem_append.mp hc with h1 | h2
      · rcases List.exists_cons_of_ne_nil hne with ⟨c0, cs, rfl⟩
        have : c ∈ [c0] := by simpa using h1
        have hcc : c = c0 := by simpa using this
        subst hcc
        exact hop c (by simp)
      · rcases List.mem_map.mp h2 with ⟨c', _, rfl⟩
        rfl

/-- Witness for C3: dealer showing a queen with a five face down draws a
four; the draw happened at 15 < 17 and every card ends face up. -/
theorem Dealer.act_policy_witness :
    Owner.pointOf ([(⟨11, CardClass.opened⟩ : Card), ⟨4, CardClass.opened⟩,
        ⟨3, CardClass.opened⟩].take 2) < Dealer.LOWER ∧
      (⟨3, CardClass.opened⟩ : Card).opened = true := by
  constructor
  · exact (Dealer.act_policy [⟨11, CardClass.opened⟩, ⟨4, CardClass.blank⟩] [3]).1
      ([⟨11, CardClass.opened⟩, ⟨4, CardClass.opened⟩, ⟨3, CardClass.opened⟩], [])
      rfl 2 (by decide) (by decide)
  · exact (Dealer.act_policy [⟨11, CardClass.opened⟩, ⟨4, CardClass.blank⟩] [3]).2
      ([⟨11, CardClass.opened⟩, ⟨4, CardClass.opened⟩, ⟨3, CardClass.opened⟩], [])
      rfl (by decide) (by decide) ⟨3, CardClass.opened⟩ (by decide)

/-- C2: the hand total equals the spec's greedy description (base points of
face-up cards, then +10 per ace while staying within 21; face-down cards
contribute 0), and equally the "upgrade as many aces as possible from 1 to
11 without exceeding 21" formulation. -/
theorem Owner.point_spec_equiv (cards : List Card) :
    Owner.point cards = specTotalPoints cards ∧
      Owner.point cards = specMaxUpgradeTotal cards := by
  have haces : specAces cards ≤ specHard cards := by
    rw [specHard_eq]
    exact countP_ace_le_hardTotal cards
  constructor
  · unfold Owner.point Owner.pointOf specTotalPoints
    have hsum : ((cards.filter Card.opened).map specBasePoint).sum
        = ((cards.filter Card.opened).map Card.point).sum := by
      congr 1
      apply List.map_congr_left
      intro c hc
      rw [specBasePoint_eq_min]
      unfold Card.point
      rw [if_pos (List.mem_filter.mp hc).2]
    rw [hsum]
    rfl
  · rw [point_closed_aux]
    unfold specMaxUpgradeTotal
    rw [findGreatest_upgrade (specAces cards) (specHard cards) haces, specHard_eq]
    by_cases hca : hasOpenAce cards ∧ hardTotal cards + 10 ≤ 21
    · rw [if_pos hca, if_pos ⟨(hasOpenAce_iff_aces_pos cards).mp hca.1, hca.2⟩]
      try omega
    · rw [if_neg hca, if_neg fun habs =>
        hca ⟨(hasOpenAce_iff_aces_pos cards).mpr habs.1, habs.2⟩]
      try omega

/-- C10: the hand total is the hard total (face-up cards at base value,
aces as 1) plus exactly 10 when a face-up ace is present and the upgrade
keeps the total within 21, and the hard total otherwise; in particular at
most one ace is ever counted as 11. -/
theorem Owner.point_closed_form (cards : List Card) :
    Owner.point cards =
      if hasOpenAce cards ∧ hardTotal cards + 10 ≤ 21 then hardTotal cards + 10
      else hardTotal cards :=
  point_closed_aux cards

/-- C7: the hand total is invariant under any permutation of the hand. -/
theorem Owner.point_perm_invariant (xs ys : List Card) (h : xs.Perm ys) :
    Owner.point xs = Owner.point ys := by
  rw [point_closed_aux, point_closed_aux]
  have hf : (xs.filter Card.opened).Perm (ys.filter Card.opened) := h.filter _
  have hhard : hardTotal xs = hardTotal ys := (hf.map Card.point).sum_eq
  have hace : hasOpenAce xs ↔ hasOpenAce ys := by
    unfold hasOpenAce
    constructor
    · rintro ⟨c, hc, hrest⟩
      exact ⟨c, h.mem_iff.mp hc, hrest⟩
    · rintro ⟨c, hc, hrest⟩
      exact ⟨c, h.mem_iff.mpr hc, hrest⟩
  rw [hhard]
  exact if_congr (and_congr_left fun _ => hace) rfl rfl

/-- C1: on normal completion of the dealer's turn, with
`playerPoints = Owner.point g.player` and
`dealerPoints = Owner.point g'.dealer` (the dealer's final hand), the
message is exactly `"Draw."` when the points tie, `"You win."` when the
dealer busts or falls short, `"You loss."` otherwise, and a fixed
`"You loss."` whenever the player's total exceeds 21. -/
theorem Game.dealer_turn_message (g g' : Game)
    (h : Game.dealer_turn g = Except.ok g') :
    (Owner.point g.player ≤ 21 →
      (Owner.point g'.dealer = Owner.point g.player → g'.message = "Draw.") ∧
      (Owner.point g'.dealer ≠ Owner.point g.player →
        (21 < Owner.point g'.dealer ∨ Owner.point g'.dealer < Owner.point g.player) →
        g'.message = "You win.") ∧
      (Owner.point g'.dealer ≠ Owner.point g.player →
        ¬(21 < Owner.point g'.dealer ∨ Owner.point g'.dealer < Owner.point g.player) →
        g'.message = "You loss.")) ∧
    (21 < Owner.point g.player → g'.message = "You loss.") := by
  unfold Game.dealer_turn at h
  by_cases hp : Owner.point g.player ≤ POINT21
  · rw [if_pos hp] at h
    cases hact : Dealer.act g.dealer g.nums with
    | error pr => rw [hact] at h; exact absurd h (by simp)
    | ok pr =>
      rw [hact] at h
      injection h with h'
      subst h'
      have hp21 : Owner.point g.player ≤ 21 := hp
      refine ⟨fun _ => ⟨?_, ?_, ?_⟩, fun hbust => absurd hp21 (by omega)⟩
      · intro heq
        have heq' : Owner.point g.player = Owner.point pr.1 := heq.symm
        show (if Owner.point g.player = Owner.point pr.1 then "Draw."
          else if POINT21 < Owner.point pr.1 ∨ Owner.point pr.1 < Owner.point g.player then
            "You win." else "You loss.") = "Draw."
        rw [if_pos heq']
      · intro hne hwin
        have hne' : ¬(Owner.point g.player = Owner.point pr.1) := fun e => hne e.symm
        have hwin' : POINT21 < Owner.point pr.1 ∨ Owner.point pr.1 < Owner.point g.player :=
          hwin
        show (if Owner.point g.player = Owner.point pr.1 then "Draw."
          else if POINT21 < Owner.point pr.1 ∨ Owner.point pr.1 < Owner.point g.player then
            "You win." else "You loss.") = "You win."
        rw [if_neg hne', if_pos hwin']
      · intro hne hnot
        have hne' : ¬(Owner.point g.player = Owner.point pr.1) := fun e => hne e.symm
        have hnot' :
            ¬(POINT21 < Owner.point pr.1 ∨ Owner.point pr.1 < Owner.point g.player) :=
          hnot
        show (if Owner.point g.player = Owner.point pr.1 then "Draw."
          else if POINT21 < Owner.point pr.1 ∨ Owner.point pr.1 < Owner.point g.player then
            "You win." else "You loss.") = "You loss."
        rw [if_neg hne', if_neg hnot']
  · rw [if_neg hp] at h
    injection h with h'
    subst h'
    have hbust : ¬(Owner.point g.player ≤ 21) := hp
    exact ⟨fun hle => absurd hle hbust, fun _ => rfl⟩

/-- Witness for C1: 20 against a dealer 17 yields `"You win."`. -/
theorem Game.dealer_turn_message_witness :
    Game.dealer_turn c1w = Except.ok c1wRes ∧ c1wRes.message = "You win." := by
  have h := Game.dealer_turn_message c1w c1wRes rfl
  exact ⟨rfl, (h.1 (by decide)).2.1 (by decide) (by decide)⟩

/-- Counterexample to C4: with the player busted at 30, `Game.dealer_turn`
completes without playing the dealer's hand at all — no card is drawn
(the deck is untouched), the hole card at index 1 stays face down, and the
dealer's visible total stays below 17 — contradicting "the dealer's
automatic turn still runs".  The message is the fixed `"You loss."`. -/
theorem Game.dealer_turn_bust_cex :
    21 < Owner.point c4g.player ∧
      Game.dealer_turn c4g = Except.ok c4gRes ∧
      c4gRes.dealer = c4g.dealer ∧
      c4gRes.dealer[1]? = some ⟨0, CardClass.blank⟩ ∧
      Owner.point c4gRes.dealer < Dealer.LOWER ∧
      c4gRes.nums = c4g.nums ∧
      c4gRes.message = "You loss." :=
  ⟨by decide, rfl, rfl, rfl, by decide, rfl, rfl⟩

/-- C4 amended: when the player's final total exceeds 21 the dealer's turn
is skipped entirely — `Game.dealer_turn` leaves the deck and both hands
(the face-down hole card included) unchanged and only sets `ask_draw` to
false and the message to `"You loss."`. -/
theorem Game.dealer_turn_bust_skips (g : Game) (hp : 21 < Owner.point g.player) :
    Game.dealer_turn g =
      Except.ok { g with ask_draw := false, message := "You loss." } := by
  unfold Game.dealer_turn
  rw [if_neg (by unfold POINT21; omega)]

/-- Witness for the amended C4 at the concrete busted state `c4g`. -/
theorem Game.dealer_turn_bust_skips_witness :
    Game.dealer_turn c4g =
      Except.ok { c4g with ask_draw := false, message := "You loss." } :=
  Game.dealer_turn_bust_skips c4g (by decide)

/-- Counterexample to C5: invoked outside the player-deciding phase
(`ask_draw = false`), the player-draw operation does not fail — it succeeds
and mutates both the player's hand and the deck. -/
theorem Game.player_turn_no_guard_cex :
    c5g.ask_draw = false ∧
      Game.player_turn c5g = Except.ok c5gRes ∧
      c5gRes.player ≠ c5g.player ∧
      c5gRes.nums ≠ c5g.nums :=
  ⟨rfl, rfl, by decide, by decide⟩

/-- C5 amended: `Game.player_turn` has no phase guard.  Called with
`ask_draw = false` (after a stand, during the dealer's play, or after
resolution) it behaves exactly as in the player-deciding phase: it pops a
card and appends it face down to the player's hand.  Phase protection
exists only in the UI, which renders the draw button solely while
`ask_draw` is true. -/
theorem Game.player_turn_no_guard (g : Game) (_hph : g.ask_draw = false)
    (nr : Nat × List Nat) (hp : Game.pop g.nums = some nr) :
    Game.player_turn g =
      Except.ok
        { g with
          player := g.player ++ [⟨nr.1, CardClass.blank⟩]
          nums := nr.2
          ask_draw := false
          message := "Click Card" } := by
  unfold Game.player_turn Player.draw
  rw [hp]

/-- Witness for the amended C5 at the concrete state `c5g`. -/
theorem Game.player_turn_no_guard_witness :
    Game.player_turn c5g =
      Except.ok
        { c5g with
          player := c5g.player ++ [⟨3, CardClass.blank⟩]
          nums := []
          ask_draw := false
          message := "Click Card" } :=
  Game.player_turn_no_guard c5g rfl (3, []) rfl

/-- C8: drawing from an empty deck fails — the pop raises before any
mutation, so the error carries the state unchanged: the player's hand has
gained no card and deck, dealer and phase state are untouched. -/
theorem Game.player_turn_empty_deck (g : Game) (h : g.nums = []) :
    Game.player_turn g = Except.error g := by
  unfold Game.player_turn Player.draw
  rw [h]
  rfl

/-- Witness for C8 at the concrete state `c8g`. -/
theorem Game.player_turn_empty_deck_witness :
    Game.player_turn c8g = Except.error c8g :=
  Game.player_turn_empty_deck c8g rfl

/-- C6: the deterministic scenario with deck `[12, 6, 11, 0, 8]`
(identities consumed from the end), one player draw, then a stand: the
player ends at 20, the dealer at 17, and the message is `"You win."`. -/
theorem Game.scenario_deck_12_6_11_0_8 :
    Game.start [12, 6, 11, 0, 8] = some c6g1 ∧
      Game.player_turn c6g1 = Except.ok c6g2 ∧
      Game.player_act c6g2 = Except.ok c6g3 ∧
      Game.dealer_turn c6g3 = Except.ok c6g4 ∧
      Owner.point c6g4.player = 20 ∧
      Owner.point c6g4.dealer = 17 ∧
      c6g4.message = "You win." :=
  ⟨rfl, rfl, rfl, rfl, by decide, by decide, rfl⟩

/-- A successful pop is a permutation fact: the deck was the popped card
on top of the remainder, up to order. -/
theorem Game.pop_perm {deck : List Nat} {nr : Nat × List Nat}
    (h : Game.pop deck = some nr) : List.Perm deck (nr.1 :: nr.2) := by
  rw [Game.pop_append h]
  exact List.perm_append_singleton _ _

/-- Reclassifying cards never changes their identities. -/
theorem map_num_reclass (l : List Card) (k : CardClass) :
    ((l.take 1 ++ (l.drop 1).map fun c => Card.mk c.num k).map Card.num) = l.map Card.num := by
  rw [List.map_append, List.map_map]
  have hcomp : (Card.num ∘ fun c => Card.mk c.num k) = Card.num := funext fun c => rfl
  rw [hcomp, ← List.map_append, List.take_append_drop]

/-- Conservation: `Dealer.act` preserves identities: on a hand of two cards, the final
dealer hand together with the remaining deck is a permutation of the
starting hand and deck. -/
theorem Dealer.act_perm (cards : List Card) (deck : List Nat)
    (res : List Card × List Nat) (hlen : cards.length = 2)
    (h : Dealer.act cards deck = Except.ok res) :
    List.Perm (res.1.map Card.num ++ res.2) (cards.map Card.num ++ deck) := by
  unfold Dealer.act at h
  cases hloop : Dealer.drawLoop (cards.map fun c => ⟨c.num, CardClass.opened⟩) deck with
  | error pr => rw [hloop] at h; exact absurd h (by simp)
  | ok pr =>
    rw [hloop] at h
    injection h with h'
    rw [← h']
    have hspec := Dealer.drawLoop_spec _ _ pr hloop
    rcases hspec.1 with ⟨d, hd, -⟩
    have hperm := hspec.2.2
    have hcompO : (Card.num ∘ fun c => Card.mk c.num CardClass.opened) = Card.num :=
      funext fun c => rfl
    have hcompH : (Card.num ∘ fun c => Card.mk c.num CardClass.hidden) = Card.num :=
      funext fun c => rfl
    have hdrop : pr.1.drop 2 = d := by
      rw [hd, show (2 : Nat) = (cards.map fun c => (⟨c.num, CardClass.opened⟩ : Card)).length by
        simp [hlen]]
      exact List.drop_left _ _
    have hperm' : List.Perm (cards.map Card.num ++ d.map Card.num ++ pr.2)
        (cards.map Card.num ++ deck) := by
      have h2 : pr.1.map Card.num = cards.map Card.num ++ d.map Card.num := by
        rw [hd, List.map_append, List.map_map, hcompO]
      rw [h2] at hperm
      rw [List.map_map, hcompO] at hperm
      exact hperm
    show List.Perm
      ((((cards ++ (pr.1.drop 2).map fun c => Card.mk c.num CardClass.hidden).take 1 ++
          ((cards ++ (pr.1.drop 2).map fun c => Card.mk c.num CardClass.hidden).drop 1).map
            fun c => Card.mk c.num CardClass.opened).map Card.num) ++ pr.2)
      (cards.map Card.num ++ deck)
    rw [map_num_reclass, List.map_append, List.map_map, hcompH, hdrop]
    exact hperm'

/-- C9: a game started on any full shuffle (an arbitrary permutation of the
52 identities stands in for `random.shuffle`) distributes the 52 pairwise
distinct identities 0–51 across the player's hand, the dealer's hand and
the deck; and the draws — the player's, and the dealer's whole turn on its
two-card hand — only move identities, so the no-repeat invariant is
preserved and a popped identity never returns. -/
theorem Game.no_repeat_invariant :
    (∀ nums g, List.Perm nums (List.range 52) → Game.start nums = some g →
      List.Perm (Game.allNums g) (List.range 52) ∧ (Game.allNums g).Nodup ∧
        (Game.allNums g).length = 52 ∧ ∀ n ∈ Game.allNums g, n < 52) ∧
      (∀ g g', Game.player_turn g = Except.ok g' →
        List.Perm (Game.allNums g') (Game.allNums g)) ∧
      (∀ g g', g.dealer.length = 2 → Game.dealer_turn g = Except.ok g' →
        List.Perm (Game.allNums g') (Game.allNums g)) := by
  refine ⟨?_, ?_, ?_⟩
  · intro nums g hperm h
    unfold Game.start at h
    split at h
    next => exact absurd h (by simp)
    next p1 hp1 =>
      split at h
      next => exact absurd h (by simp)
      next p2 hp2 =>
        split at h
        next => exact absurd h (by simp)
        next d1 hp3 =>
          split at h
          next => exact absurd h (by simp)
          next d2 hp4 =>
            injection h with h'
            subst h'
            have k4 := Game.pop_perm hp4
            have k3 := (Game.pop_perm hp3).trans (List.Perm.cons d1.1 k4)
            have k2 := (Game.pop_perm hp2).trans (List.Perm.cons p2.1 k3)
            have k1 := (Game.pop_perm hp1).trans (List.Perm.cons p1.1 k2)
            have hmain : List.Perm (Game.allNums
                { nums := d2.2
                  dealer := [⟨d1.1, CardClass.opened⟩, ⟨d2.1, CardClass.blank⟩]
                  player := [⟨p1.1, CardClass.opened⟩, ⟨p2.1, CardClass.opened⟩]
                  ask_draw := true
                  message := "Draw card?" }) (List.range 52) := by
              refine List.Perm.trans ?_ hperm
              refine List.Perm.trans ?_ k1.symm
              refine List.perm_iff_count.mpr fun a => ?_
              simp [Game.allNums, List.count_append, List.count_cons]
              try omega
            refine ⟨hmain, hmain.nodup_iff.mpr (List.nodup_range 52),
              hmain.length_eq.trans (List.length_range 52), ?_⟩
            intro n hn
            exact List.mem_range.mp (hmain.subset hn)
  · intro g g' h
    unfold Game.player_turn Player.draw at h
    cases hpop : Game.pop g.nums with
    | none => rw [hpop] at h; exact absurd h (by simp)
    | some nr =>
      rw [hpop] at h
      injection h with h'
      subst h'
      refine List.perm_iff_count.mpr fun a => ?_
      have hnums := Game.pop_append hpop
      simp only [Game.allNums, List.map_append, List.count_append, hnums]
      simp only [List.map_cons, List.map_nil, List.count_append]
      omega
  · intro g g' hlen h
    unfold Game.dealer_turn at h
    by_cases hp : Owner.point g.player ≤ POINT21
    · rw [if_pos hp] at h
      cases hact : Dealer.act g.dealer g.nums with
      | error pr => rw [hact] at h; exact absurd h (by simp)
      | ok pr =>
        rw [hact] at h
        injection h with h'
        subst h'
        refine List.perm_iff_count.mpr fun a => ?_
        have hc := (Dealer.act_perm g.dealer g.nums pr hlen hact).count_eq a
        simp only [List.count_append] at hc
        simp [Game.allNums, List.count_append]
        omega
    · rw [if_neg hp] at h
      injection h with h'
      subst h'
      exact List.Perm.refl _

/-- Witness for C9 on the identity shuffle: the start state is a
permutation of 0–51, and both draws preserve the identity multiset. -/
theorem Game.no_repeat_invariant_witness :
    List.Perm (Game.allNums c9g) (List.range 52) ∧
      List.Perm (Game.allNums c9g2) (Game.allNums c9g) ∧
      List.Perm (Game.allNums c9gd) (Game.allNums c9g) :=
  ⟨(Game.no_repeat_invariant.1 (List.range 52) c9g (List.Perm.refl _) rfl).1,
    Game.no_repeat_invariant.2.1 c9g c9g2 rfl,
    Game.no_repeat_invariant.2.2 c9g c9gd rfl rfl⟩

/-- Witness for C7: swapping a nine and an ace leaves the total at 20. -/
theorem Owner.point_perm_invariant_witness :
    Owner.point [⟨0, CardClass.opened⟩, ⟨9, CardClass.opened⟩] =
      Owner.point [⟨9, CardClass.opened⟩, ⟨0, CardClass.opened⟩] :=
  Owner.point_perm_invariant _ _ (List.Perm.swap _ _ _)
